import Mathlib

/-
Verification of the NEM single-period electricity dispatch model
(`electricity_market_model.py` and `helper_functions.py`).

The Python program reads five tables (regional demand, generators, price
levels, bids, interconnectors), validates bids against nameplate capacity,
builds a linear program with `pulp`, solves it, and extracts a result
dictionary.  Here the tables are lists of rows, Python dicts are
insertion-ordered association lists, and the LP is a symbolic model
(variables, a linear objective, a list of linear constraints).  The external
LP solver is an opaque parameter producing a `SolverOutcome`.
-/

set_option autoImplicit false

namespace Nem

/-- A row of `region_demand.csv`: `(region, demand)`. -/
structure DemandRow where
  region : String
  demand : ℚ
deriving DecidableEq

/-- A row of `generators.csv`: `(region, generator_name, nameplate_capacity)`. -/
structure GenRow where
  region : String
  gen : String
  cap : ℚ
deriving DecidableEq

/-- A row of `bids.csv`: `(generator_name, pricelevel, bid_capacity)`. -/
structure BidRow where
  gen : String
  priceband : ℚ
  cap : ℚ
deriving DecidableEq

/-- A row of `region_interconnector.csv`:
`(interconnector_id, region_start, region_end, interconnector_capacity)`. -/
structure IcRow where
  icid : String
  rstart : String
  rend : String
  cap : ℚ
deriving DecidableEq

/-- The five in-memory tables, as read by `solve_electricity_market`. -/
structure MarketInput where
  demand : List DemandRow
  gens : List GenRow
  bands : List ℚ
  bids : List BidRow
  ics : List IcRow
deriving DecidableEq

/-! ## Insertion-ordered association lists (Python `dict` semantics)

A Python `dict` keeps keys in first-insertion order and overwrites the value
in place on re-assignment.  `dinsert` mirrors `d[k] = v`, `dlookup` mirrors
`d[k]` (`none` standing for a raised `KeyError`). -/

def dinsert {α β : Type} [DecidableEq α] : List (α × β) → α → β → List (α × β)
  | [], k, v => [(k, v)]
  | (k0, v0) :: t, k, v =>
      if k = k0 then (k, v) :: t else (k0, v0) :: dinsert t k v

def dlookup {α β : Type} [DecidableEq α] : List (α × β) → α → Option β
  | [], _ => none
  | (k0, v0) :: t, k => if k = k0 then some v0 else dlookup t k

/-- Build a dict from a list of key-value pairs in order (as `dict(zip(ks, vs))`
does: later pairs overwrite earlier ones). -/
def dictOf {α β : Type} [DecidableEq α] (ps : List (α × β)) : List (α × β) :=
  ps.foldl (fun d p => dinsert d p.1 p.2) []

/-! ## Bid validation (`helper_functions.validate_bids_against_capacity`) -/

/-- The distinct generator names occurring in the bid table
(`bids_input.groupby('generator_name')` group keys; iteration order is
irrelevant to the boolean outcome). -/
def bidGenNames (bids : List BidRow) : List String :=
  bids.foldl (fun l b => if b.gen ∈ l then l else l ++ [b.gen]) []

/-- Sum of `bid_capacity` over all bid rows of one generator
(the grouped `['bid_capacity'].sum()`). -/
def totalBid (bids : List BidRow) (g : String) : ℚ :=
  ((bids.filter (fun b => decide (b.gen = g))).map (fun b => b.cap)).sum

/-- `dict(zip(generator_input['generator_name'], generator_input['nameplate_capacity']))`. -/
def genCaps (gens : List GenRow) : List (String × ℚ) :=
  dictOf (gens.map (fun g => (g.gen, g.cap)))

/-- `validate_bids_against_capacity`: `False` if some bidding generator is
absent from the generator table or its summed bids strictly exceed its
nameplate capacity, `True` otherwise. -/
def validate_bids_against_capacity (gens : List GenRow) (bids : List BidRow) : Bool :=
  (bidGenNames bids).all (fun g =>
    match dlookup (genCaps gens) g with
    | none => false
    | some c => decide (totalBid bids g ≤ c))

/-! ## The symbolic linear program -/

/-- LP decision variables: `gen_dispatch[r, g, p]` and `flow[interconnector_id]`. -/
inductive Var where
  | disp (r g : String) (p : ℚ)
  | flow (ic : String)
deriving DecidableEq

/-- Comparison sense of one linear constraint. -/
inductive Rel where
  | le
  | eq
deriving DecidableEq

/-- One linear constraint `Σ coeff·var REL rhs`, with the left side kept as a
list of `(variable, coefficient)` terms. -/
structure Constr where
  lhs : List (Var × ℚ)
  rel : Rel
  rhs : ℚ
deriving DecidableEq

/-- Objective sense (`pulp.LpMinimize` / `pulp.LpMaximize`). -/
inductive Sense where
  | minimize
  | maximize
deriving DecidableEq

/-- The built LP: the dispatch-variable index set, the flow-variable ids with
their symmetric bounds, the objective, and the constraints.  Dispatch
variables carry lower bound `0`; flow variable `i` is bounded by
`[-cap, cap]` for its recorded capacity. -/
structure LPModel where
  varIndex : List (String × String × ℚ)
  flowIds : List String
  flowCaps : List (String × ℚ)
  objSense : Sense
  obj : List (Var × ℚ)
  constrs : List Constr
deriving DecidableEq

/-- Value of a linear term list under an assignment of the variables. -/
def evalLin (v : Var → ℚ) (ts : List (Var × ℚ)) : ℚ :=
  (ts.map (fun t => v t.1 * t.2)).sum

/-- An assignment satisfies one constraint. -/
def satisfiedBy (v : Var → ℚ) (c : Constr) : Prop :=
  match c.rel with
  | Rel.le => evalLin v c.lhs ≤ c.rhs
  | Rel.eq => evalLin v c.lhs = c.rhs

/-! ## Model construction (`solve_electricity_market`, lines 25-133) -/

/-- `regions = list(region_demand_raw['region'])` (duplicates kept). -/
def regionsOf (inp : MarketInput) : List String :=
  inp.demand.map (fun d => d.region)

/-- `demand = dict(zip(region_demand_raw['region'], region_demand_raw['demand']))`. -/
def demandDict (inp : MarketInput) : List (String × ℚ) :=
  dictOf (inp.demand.map (fun d => (d.region, d.demand)))

/-- The nested dict `generators[region][generator_name] = nameplate_capacity`,
built row by row. -/
def gensDict (gens : List GenRow) : List (String × List (String × ℚ)) :=
  gens.foldl
    (fun d g => dinsert d g.region (dinsert ((dlookup d g.region).getD []) g.gen g.cap))
    []

/-- Keys of `interconnector_capacities` in insertion order (first occurrence
of each `interconnector_id`). -/
def icIds (ics : List IcRow) : List String :=
  ics.foldl (fun l ic => if ic.icid ∈ l then l else l ++ [ic.icid]) []

/-- The first interconnector row carrying a given id.  The source reads
`region_start`/`region_end` of id `i` with `next(iter(...))` on the nested
dict, which yields exactly the first inserted keys, i.e. the first row. -/
def icFirst (ics : List IcRow) (i : String) : Option IcRow :=
  ics.find? (fun ic => decide (ic.icid = i))

/-- The capacity stored at
`interconnector_capacities[i][region_start][region_end]` for the first row's
region pair: the last row with that id and pair wins. -/
def flowCapOf (ics : List IcRow) (i : String) : ℚ :=
  match icFirst ics i with
  | none => 0
  | some row =>
      (((ics.filter (fun x =>
          decide (x.icid = i) && decide (x.rstart = row.rstart)
            && decide (x.rend = row.rend))).getLast?).map (fun x => x.cap)).getD 0

/-- The per-band bid dict of one generator,
`bids[region][gen]` (filtered by `generator_name` only; the region plays no
role in the filter). -/
def bidsFor (bids : List BidRow) (g : String) : List (ℚ × ℚ) :=
  (bids.filter (fun b => decide (b.gen = g))).foldl
    (fun d b => dinsert d b.priceband b.cap) []

/-- The dispatch-variable index set, in the loop order
`for r in regions: for g in generators[r]: for p in price_bands`. -/
def dispTriples (inp : MarketInput) : List (String × String × ℚ) :=
  (regionsOf inp).flatMap (fun r =>
    ((dlookup (gensDict inp.gens) r).getD []).flatMap (fun gc =>
      inp.bands.map (fun p => (r, gc.1, p))))

/-- First region of the `regions` list absent from the `generators` dict: the
key whose lookup at line 65 (`for gen in generators[region]`) raises
`KeyError`. -/
def firstMissingRegion (inp : MarketInput) : Option String :=
  (regionsOf inp).find? (fun r => (dlookup (gensDict inp.gens) r).isNone)

/-- First `(r, g, p)` in constraint-loop order whose generator has no bid row
at band `p`: the key whose lookup at line 107 (`bids[r][g][p]`) raises
`KeyError`. -/
def firstMissingBand (inp : MarketInput) : Option (String × String × ℚ) :=
  (dispTriples inp).find? (fun t => (dlookup (bidsFor inp.bids t.2.1) t.2.2).isNone)

/-- Objective terms: `gen_dispatch[r, g, p] * p` over all dispatch variables. -/
def objTerms (inp : MarketInput) : List (Var × ℚ) :=
  (dispTriples inp).map (fun t => (Var.disp t.1 t.2.1 t.2.2, t.2.2))

/-- Bid-cap constraint `gen_dispatch[r, g, p] <= bids[r][g][p]` (line 107).
Under `buildModel` the lookup never misses; `getD 0` is never reached. -/
def bidCapConstr (inp : MarketInput) (r g : String) (p : ℚ) : Constr :=
  ⟨[(Var.disp r g p, 1)], Rel.le, (dlookup (bidsFor inp.bids g) p).getD 0⟩

/-- Nameplate constraint
`lpSum(gen_dispatch[r, g, p] for p in price_bands) <= generators[r][g]` (line 109). -/
def nameplateConstr (inp : MarketInput) (r g : String) (cap : ℚ) : Constr :=
  ⟨inp.bands.map (fun p => (Var.disp r g p, 1)), Rel.le, cap⟩

/-- The generator-capacity constraint block (lines 104-109): for each region
and each of its generators, the per-band bid caps then the nameplate cap. -/
def genConstrs (inp : MarketInput) : List Constr :=
  (regionsOf inp).flatMap (fun r =>
    ((dlookup (gensDict inp.gens) r).getD []).flatMap (fun gc =>
      inp.bands.map (fun p => bidCapConstr inp r gc.1 p)
        ++ [nameplateConstr inp r gc.1 gc.2]))

/-- `region_generation`: terms of
`lpSum(gen_dispatch[region, g, p] for g in generators[region] for p in price_bands)`. -/
def genTerms (inp : MarketInput) (r : String) : List (Var × ℚ) :=
  ((dlookup (gensDict inp.gens) r).getD []).flatMap (fun gc =>
    inp.bands.map (fun p => (Var.disp r gc.1 p, (1 : ℚ))))

/-- `region_net_flow` terms (lines 121-130): for each interconnector id, with
`from_region`/`to_region` read off the first row of that id,
`-flow` when the region is the source, else `+flow` when it is the
destination (note the `elif`). -/
def netFlowTerms (ics : List IcRow) (r : String) : List (Var × ℚ) :=
  (icIds ics).filterMap (fun i =>
    match icFirst ics i with
    | none => none
    | some row =>
        if r = row.rstart then some (Var.flow i, (-1 : ℚ))
        else if r = row.rend then some (Var.flow i, (1 : ℚ))
        else none)

/-- Regional balance constraint (line 133):
`region_generation + region_net_flow == demand[region]`.  The demand lookup
cannot miss because `regions` is read off the demand table itself. -/
def balanceConstr (inp : MarketInput) (r : String) : Constr :=
  ⟨genTerms inp r ++ netFlowTerms inp.ics r, Rel.eq,
    (dlookup (demandDict inp) r).getD 0⟩

/-- Python exceptions the source can raise while building the model. -/
inductive PyErr where
  | keyErrS (k : String)
  | keyErrQ (k : ℚ)
  | valueErr (msg : String)
deriving DecidableEq

/-- Model construction.  Mirrors the source's failure points in program
order: the region lookup of line 65 fails first, then the band lookup of
line 107; otherwise the full LP is assembled. -/
def buildModel (inp : MarketInput) : Except PyErr LPModel :=
  match firstMissingRegion inp with
  | some r => Except.error (PyErr.keyErrS r)
  | none =>
      match firstMissingBand inp with
      | some t => Except.error (PyErr.keyErrQ t.2.2)
      | none =>
          Except.ok
            { varIndex := dispTriples inp
              flowIds := icIds inp.ics
              flowCaps := (icIds inp.ics).map (fun i => (i, flowCapOf inp.ics i))
              objSense := Sense.minimize
              obj := objTerms inp
              constrs := genConstrs inp ++ (regionsOf inp).map (balanceConstr inp) }

/-! ## Solving and result extraction (lines 136-160) -/

/-- What the opaque external solver hands back: the terminal status string
(`pulp.LpStatus[model.status]`), the objective value as `pulp.value` reports
it (`none` for Python `None`), and a value per variable. -/
structure SolverOutcome where
  status : String
  objVal : Option ℚ
  value : Var → ℚ

/-- The `results` dictionary: status, `total_cost`, nested dispatch totals,
and the interconnector flow dict keyed by `(from_region, to_region)`. -/
structure MarketResult where
  status : String
  total_cost : Option ℚ
  dispatch : List (String × List (String × ℚ))
  interconnector_flow : List ((String × String) × ℚ)
deriving DecidableEq

/-- Lines 147-151: one dict entry per interconnector id, keyed by the
`(from_region, to_region)` pair of its first row; a repeated pair overwrites
the earlier entry. -/
def flowEntries (ics : List IcRow) (v : Var → ℚ) : List ((String × String) × ℚ) :=
  (icIds ics).foldl
    (fun d i =>
      match icFirst ics i with
      | none => d
      | some row => dinsert d (row.rstart, row.rend) (v (Var.flow i)))
    []

/-- Lines 153-158: per region, per generator, the dispatch total summed over
price bands. -/
def dispatchEntries (inp : MarketInput) (v : Var → ℚ) :
    List (String × List (String × ℚ)) :=
  (regionsOf inp).foldl
    (fun d r =>
      dinsert d r
        (((dlookup (gensDict inp.gens) r).getD []).foldl
          (fun dr gc =>
            dinsert dr gc.1 ((inp.bands.map (fun p => v (Var.disp r gc.1 p))).sum))
          []))
    []

/-- The Solution Extractor (lines 139-158): the results dictionary is
populated from the solver state unconditionally, whatever the status. -/
def extractResults (inp : MarketInput) (o : SolverOutcome) : MarketResult :=
  { status := o.status
    total_cost := o.objVal
    dispatch := dispatchEntries inp o.value
    interconnector_flow := flowEntries inp.ics o.value }

/-- `solve_electricity_market`: validate, build, solve (via the opaque
`solver`), extract.  A `False` validation raises
`ValueError("Bids exceed generator capacity")` before anything else. -/
def solveMarket (solver : LPModel → SolverOutcome) (inp : MarketInput) :
    Except PyErr MarketResult :=
  if validate_bids_against_capacity inp.gens inp.bids then
    match buildModel inp with
    | Except.error e => Except.error e
    | Except.ok m => Except.ok (extractResults inp (solver m))
  else
    Except.error (PyErr.valueErr "Bids exceed generator capacity")

/-- The model of an input whose construction succeeds (a convenience for
stating closed facts; defaults to the empty model on failure). -/
def modelOf (inp : MarketInput) : LPModel :=
  match buildModel inp with
  | Except.ok m => m
  | Except.error _ => ⟨[], [], [], Sense.minimize, [], []⟩

/-- A stand-in solver outcome used to instantiate solver-parametric facts. -/
def trivOutcome : SolverOutcome := ⟨"Undefined", none, fun _ => 0⟩

/-- A stand-in solver used to instantiate solver-parametric facts. -/
def trivSolver : LPModel → SolverOutcome := fun _ => trivOutcome

/-! ## Spec-side definitions (for refinement comparisons)

These two follow the specification's words, to be compared with the
definitions extracted from the source. -/

/-- Modelled from the spec: the region's generation,
`Σ_{g in region} Σ_p dispatch[r,g,p]`, summing over the generator rows whose
`region` field is `r`. -/
def regionDispatchSum (inp : MarketInput) (v : Var → ℚ) (r : String) : ℚ :=
  ((inp.gens.filter (fun g => decide (g.region = r))).map (fun g =>
    (inp.bands.map (fun p => v (Var.disp r g.gen p))).sum)).sum

/-- Modelled from the spec: `net_flow_into(region)` sums `+flow[ic]` for
every interconnector whose `region_end` is the region and `-flow[ic]` for
every interconnector whose `region_start` is the region. -/
def specNetFlowInto (inp : MarketInput) (v : Var → ℚ) (r : String) : ℚ :=
  ((inp.ics.filter (fun ic => decide (ic.rend = r))).map
      (fun ic => v (Var.flow ic.icid))).sum
    - ((inp.ics.filter (fun ic => decide (ic.rstart = r))).map
        (fun ic => v (Var.flow ic.icid))).sum

/-! ## Association-list lemmas -/

section AssocLemmas

variable {α β : Type} [DecidableEq α]

@[simp] theorem dlookup_nil (k : α) : dlookup ([] : List (α × β)) k = none := rfl

theorem dlookup_dinsert_self (d : List (α × β)) (k : α) (v : β) :
    dlookup (dinsert d k v) k = some v := by
  induction d with
  | nil => simp [dinsert, dlookup]
  | cons p t ih =>
      obtain ⟨k0, v0⟩ := p
      by_cases h : k = k0
      · simp [dinsert, dlookup, h]
      · simp [dinsert, dlookup, h, ih]

theorem dlookup_dinsert_ne (d : List (α × β)) (k k' : α) (v : β) (h : k' ≠ k) :
    dlookup (dinsert d k v) k' = dlookup d k' := by
  induction d with
  | nil => simp [dinsert, dlookup, h]
  | cons p t ih =>
      obtain ⟨k0, v0⟩ := p
      by_cases h0 : k = k0
      · subst h0; simp [dinsert, dlookup, h]
      · simp only [dinsert, if_neg h0]
        by_cases h1 : k' = k0
        · simp [dlookup, h1]
        · simp [dlookup, h1, ih]

theorem dinsert_of_not_mem (d : List (α × β)) (k : α) (v : β)
    (h : k ∉ d.map Prod.fst) : dinsert d k v = d ++ [(k, v)] := by
  induction d with
  | nil => rfl
  | cons p t ih =>
      obtain ⟨k0, v0⟩ := p
      simp only [List.map_cons, List.mem_cons] at h
      push_neg at h
      simp [dinsert, h.1, ih h.2]

theorem keys_dinsert (d : List (α × β)) (k : α) (v : β) :
    (dinsert d k v).map Prod.fst
      = if k ∈ d.map Prod.fst then d.map Prod.fst else d.map Prod.fst ++ [k] := by
  induction d with
  | nil => simp [dinsert]
  | cons p t ih =>
      obtain ⟨k0, v0⟩ := p
      by_cases h : k = k0
      · simp [dinsert, h]
      · simp only [dinsert, if_neg h, List.map_cons, List.mem_cons, h, false_or]
        by_cases hm : k ∈ t.map Prod.fst <;> simp [ih, hm]

theorem keys_dinsert_nodup (d : List (α × β)) (k : α) (v : β)
    (h : (d.map Prod.fst).Nodup) : ((dinsert d k v).map Prod.fst).Nodup := by
  rw [keys_dinsert]
  by_cases hm : k ∈ d.map Prod.fst
  · simpa [hm] using h
  · simp only [hm, if_false]
    rw [List.nodup_append]
    exact ⟨h, List.nodup_singleton k, by simpa using hm⟩

theorem dlookup_eq_none_iff (d : List (α × β)) (k : α) :
    dlookup d k = none ↔ k ∉ d.map Prod.fst := by
  induction d with
  | nil => simp
  | cons p t ih =>
      obtain ⟨k0, v0⟩ := p
      by_cases h : k = k0
      · simp [dlookup, h]
      · simp [dlookup, h, ih]

theorem dlookup_of_mem_of_nodup (d : List (α × β)) (k : α) (v : β)
    (hnd : (d.map Prod.fst).Nodup) (hm : (k, v) ∈ d) : dlookup d k = some v := by
  induction d with
  | nil => simp at hm
  | cons p t ih =>
      obtain ⟨k0, v0⟩ := p
      simp only [List.map_cons, List.nodup_cons] at hnd
      rcases List.mem_cons.mp hm with h | h
      · obtain ⟨rfl, rfl⟩ := Prod.mk.injEq .. ▸ h
        simp [dlookup]
      · have hk : k ≠ k0 := by
          rintro rfl
          exact hnd.1 (List.mem_map_of_mem Prod.fst h)
        simp [dlookup, hk, ih hnd.2 h]

theorem foldl_dinsert_fresh (ps acc : List (α × β))
    (hfresh : ∀ p ∈ ps, p.1 ∉ acc.map Prod.fst) (hnd : (ps.map Prod.fst).Nodup) :
    ps.foldl (fun d p => dinsert d p.1 p.2) acc = acc ++ ps := by
  induction ps generalizing acc with
  | nil => simp
  | cons p t ih =>
      simp only [List.map_cons, List.nodup_cons] at hnd
      rw [List.foldl_cons, dinsert_of_not_mem _ _ _ (hfresh p (List.mem_cons_self ..))]
      rw [ih (acc ++ [p]) ?_ hnd.2]
      · simp
      · intro q hq
        simp only [List.map_append, List.mem_append, List.map_cons, List.map_nil,
          List.mem_singleton]
        push_neg
        refine ⟨hfresh q (List.mem_cons_of_mem _ hq), ?_⟩
        intro he
        exact hnd.1 (he ▸ List.mem_map_of_mem Prod.fst hq)

theorem dictOf_eq_self (ps : List (α × β)) (hnd : (ps.map Prod.fst).Nodup) :
    dictOf ps = ps := by
  simpa using foldl_dinsert_fresh ps [] (by simp) hnd

theorem dlookup_foldl_dinsert_none (ps acc : List (α × β)) (k : α) :
    dlookup (ps.foldl (fun d p => dinsert d p.1 p.2) acc) k = none
      ↔ dlookup acc k = none ∧ k ∉ ps.map Prod.fst := by
  induction ps generalizing acc with
  | nil => simp
  | cons p t ih =>
      rw [List.foldl_cons, ih]
      by_cases h : k = p.1
      · subst h
        simp [dlookup_dinsert_self]
      · simp [dlookup_dinsert_ne _ _ _ _ h, h, and_assoc]

theorem dlookup_dictOf_none (ps : List (α × β)) (k : α) :
    dlookup (dictOf ps) k = none ↔ k ∉ ps.map Prod.fst := by
  simpa [dictOf] using dlookup_foldl_dinsert_none ps [] k

theorem keys_foldl_dinsert_nodup (ps acc : List (α × β))
    (h : (acc.map Prod.fst).Nodup) :
    ((ps.foldl (fun d p => dinsert d p.1 p.2) acc).map Prod.fst).Nodup := by
  induction ps generalizing acc with
  | nil => simpa using h
  | cons p t ih => exact List.foldl_cons .. ▸ ih _ (keys_dinsert_nodup _ _ _ h)

theorem keys_dictOf_nodup (ps : List (α × β)) :
    ((dictOf ps).map Prod.fst).Nodup :=
  keys_foldl_dinsert_nodup ps [] (by simp)

end AssocLemmas

/-! ## Dedup-fold lemmas (dict key order) -/

section DedupFold

variable {α : Type} [DecidableEq α]

theorem foldl_dedupStep_eq (l acc : List α) (hnd : l.Nodup)
    (hdisj : ∀ x ∈ l, x ∉ acc) :
    l.foldl (fun a x => if x ∈ a then a else a ++ [x]) acc = acc ++ l := by
  induction l generalizing acc with
  | nil => simp
  | cons x t ih =>
      rw [List.nodup_cons] at hnd
      rw [List.foldl_cons, if_neg (hdisj x (List.mem_cons_self ..))]
      rw [ih (acc ++ [x]) hnd.2 ?_]
      · simp
      · intro y hy
        simp only [List.mem_append, List.mem_singleton]
        push_neg
        exact ⟨hdisj y (List.mem_cons_of_mem _ hy), fun he => hnd.1 (he ▸ hy)⟩

theorem mem_foldl_dedupStep (l acc : List α) (x : α) :
    x ∈ l.foldl (fun a y => if y ∈ a then a else a ++ [y]) acc ↔ x ∈ acc ∨ x ∈ l := by
  induction l generalizing acc with
  | nil => simp
  | cons y t ih =>
      rw [List.foldl_cons]
      by_cases h : y ∈ acc
      · rw [if_pos h, ih]
        constructor
        · rintro (hx | hx)
          · exact Or.inl hx
          · exact Or.inr (List.mem_cons_of_mem _ hx)
        · rintro (hx | hx)
          · exact Or.inl hx
          · rcases List.mem_cons.mp hx with rfl | hx
            · exact Or.inl h
            · exact Or.inr hx
      · rw [if_neg h, ih]
        simp only [List.mem_append, List.mem_singleton, List.mem_cons]
        tauto

end DedupFold

/-! ## Linear-expression lemmas -/

@[simp] theorem evalLin_nil (v : Var → ℚ) : evalLin v [] = 0 := rfl

@[simp] theorem evalLin_cons (v : Var → ℚ) (t : Var × ℚ) (ts : List (Var × ℚ)) :
    evalLin v (t :: ts) = v t.1 * t.2 + evalLin v ts := by
  simp [evalLin]

theorem evalLin_append (v : Var → ℚ) (a b : List (Var × ℚ)) :
    evalLin v (a ++ b) = evalLin v a + evalLin v b := by
  simp [evalLin]

theorem evalLin_flatMap {γ : Type} (v : Var → ℚ) (l : List γ)
    (f : γ → List (Var × ℚ)) :
    evalLin v (l.flatMap f) = (l.map (fun x => evalLin v (f x))).sum := by
  induction l with
  | nil => simp
  | cons x t ih => simp [List.flatMap_cons, evalLin_append, ih]

theorem evalLin_map_one {γ : Type} (v : Var → ℚ) (l : List γ) (f : γ → Var) :
    evalLin v (l.map (fun x => (f x, (1 : ℚ)))) = (l.map (fun x => v (f x))).sum := by
  simp [evalLin, List.map_map, Function.comp_def]

/-! ## Characterization of the generator dict -/

theorem gensDict_getD (rows : List GenRow) (acc : List (String × List (String × ℚ)))
    (r : String) :
    (dlookup (rows.foldl
        (fun d g => dinsert d g.region (dinsert ((dlookup d g.region).getD []) g.gen g.cap))
        acc) r).getD []
      = (rows.filter (fun g => decide (g.region = r))).foldl
          (fun d g => dinsert d g.gen g.cap) ((dlookup acc r).getD []) := by
  induction rows generalizing acc with
  | nil => simp
  | cons g t ih =>
      rw [List.foldl_cons, ih, List.filter_cons]
      by_cases h : g.region = r
      · rw [if_pos (by simpa using h), List.foldl_cons]
        have : dlookup (dinsert acc g.region
            (dinsert ((dlookup acc g.region).getD []) g.gen g.cap)) r
            = some (dinsert ((dlookup acc g.region).getD []) g.gen g.cap) := by
          rw [← h]; exact dlookup_dinsert_self ..
        rw [this, Option.getD_some, h]
      · rw [if_neg (by simpa using h)]
        have : dlookup (dinsert acc g.region
            (dinsert ((dlookup acc g.region).getD []) g.gen g.cap)) r
            = dlookup acc r :=
          dlookup_dinsert_ne _ _ _ _ (fun he => h he.symm)
        rw [this]

theorem gensDict_getD_eq_dictOf (rows : List GenRow) (r : String) :
    (dlookup (gensDict rows) r).getD []
      = dictOf ((rows.filter (fun g => decide (g.region = r))).map
          (fun g => (g.gen, g.cap))) := by
  unfold gensDict dictOf
  rw [gensDict_getD rows [] r, List.foldl_map]
  rfl

theorem gensDict_inner_keys_nodup (rows : List GenRow) (r : String) :
    (((dlookup (gensDict rows) r).getD []).map Prod.fst).Nodup := by
  rw [gensDict_getD_eq_dictOf]
  exact keys_dictOf_nodup _

theorem filter_names_nodup (rows : List GenRow) (r : String)
    (h : (rows.map (fun g => (g.region, g.gen))).Nodup) :
    ((rows.filter (fun g => decide (g.region = r))).map (fun g => g.gen)).Nodup := by
  induction rows with
  | nil => simp
  | cons g t ih =>
      rw [List.map_cons, List.nodup_cons] at h
      rw [List.filter_cons]
      by_cases hr : g.region = r
      · rw [if_pos (by simpa using hr), List.map_cons, List.nodup_cons]
        refine ⟨?_, ih h.2⟩
        intro hmem
        obtain ⟨g2, hg2, hname⟩ := List.mem_map.mp hmem
        obtain ⟨hg2t, hg2r⟩ := List.mem_filter.mp hg2
        apply h.1
        have : (g2.region, g2.gen) = (g.region, g.gen) := by
          rw [hname, hr, (by simpa using hg2r : g2.region = r)]
        exact this ▸ List.mem_map_of_mem _ hg2t
      · rw [if_neg (by simpa using hr)]
        exact ih h.2

theorem gensDict_getD_of_nodup (rows : List GenRow) (r : String)
    (h : (rows.map (fun g => (g.region, g.gen))).Nodup) :
    (dlookup (gensDict rows) r).getD []
      = (rows.filter (fun g => decide (g.region = r))).map (fun g => (g.gen, g.cap)) := by
  rw [gensDict_getD_eq_dictOf]
  apply dictOf_eq_self
  simpa [List.map_map, Function.comp_def] using filter_names_nodup rows r h

/-! ## Interconnector lemmas -/

theorem icIds_eq_map (ics : List IcRow) (h : (ics.map (fun ic => ic.icid)).Nodup) :
    icIds ics = ics.map (fun ic => ic.icid) := by
  have hfold := List.foldl_map (fun ic : IcRow => ic.icid)
      (fun (a : List String) y => if y ∈ a then a else a ++ [y]) ics []
  unfold icIds
  rw [← hfold]
  simpa using foldl_dedupStep_eq (ics.map (fun ic => ic.icid)) [] h (by simp)

theorem icFirst_of_nodup (ics : List IcRow) (h : (ics.map (fun ic => ic.icid)).Nodup)
    (row : IcRow) (hm : row ∈ ics) : icFirst ics row.icid = some row := by
  induction ics with
  | nil => simp at hm
  | cons ic t ih =>
      rw [List.map_cons, List.nodup_cons] at h
      rcases List.mem_cons.mp hm with rfl | hm2
      · unfold icFirst
        rw [List.find?_cons_of_pos]
        simp
      · have hne : ic.icid ≠ row.icid := by
          intro he
          exact h.1 (he ▸ List.mem_map_of_mem _ hm2)
        have ht := ih h.2 hm2
        unfold icFirst at ht ⊢
        rw [List.find?_cons_of_neg]
        · exact ht
        · simp [hne]

/-- Row-level form of the net-flow term: the same `if`/`elif` as the source,
applied to one interconnector row. -/
def netFlowRowFn (r : String) (row : IcRow) : Option (Var × ℚ) :=
  if r = row.rstart then some (Var.flow row.icid, (-1 : ℚ))
  else if r = row.rend then some (Var.flow row.icid, (1 : ℚ))
  else none

theorem netFlowTerms_eq (ics : List IcRow)
    (h : (ics.map (fun ic => ic.icid)).Nodup) (r : String) :
    netFlowTerms ics r = ics.filterMap (netFlowRowFn r) := by
  unfold netFlowTerms
  rw [icIds_eq_map ics h, List.filterMap_map]
  apply List.filterMap_congr
  intro row hrow
  simp only [Function.comp_apply, icFirst_of_nodup ics h row hrow]
  rfl

theorem evalLin_netFlowRows (ics : List IcRow) (r : String) (v : Var → ℚ)
    (h : ∀ ic ∈ ics, ic.rstart ≠ ic.rend) :
    evalLin v (ics.filterMap (netFlowRowFn r))
      = ((ics.filter (fun ic => decide (ic.rend = r))).map
            (fun ic => v (Var.flow ic.icid))).sum
        - ((ics.filter (fun ic => decide (ic.rstart = r))).map
            (fun ic => v (Var.flow ic.icid))).sum := by
  induction ics with
  | nil => simp
  | cons ic t ih =>
      have hne := h ic (List.mem_cons_self ..)
      have iht := ih (fun x hx => h x (List.mem_cons_of_mem _ hx))
      rw [List.filterMap_cons, List.filter_cons, List.filter_cons]
      by_cases h1 : r = ic.rstart
      · have h2 : ¬(ic.rend = r) := fun he => hne (h1 ▸ he ▸ rfl)
        simp only [netFlowRowFn, if_pos h1, evalLin_cons,
          decide_eq_true_eq, if_neg h2, if_pos h1.symm, List.map_cons, List.sum_cons, iht]
        ring
      · by_cases h2 : r = ic.rend
        · simp only [netFlowRowFn, if_neg h1, if_pos h2, evalLin_cons,
            decide_eq_true_eq, if_pos h2.symm,
            if_neg (fun he : ic.rstart = r => h1 he.symm),
            List.map_cons, List.sum_cons, iht]
          ring
        · simp only [netFlowRowFn, if_neg h1, if_neg h2,
            decide_eq_true_eq, if_neg (fun he : ic.rend = r => h2 he.symm),
            if_neg (fun he : ic.rstart = r => h1 he.symm), iht]

/-! ## Demand-dict lemma -/

theorem demandDict_lookup (inp : MarketInput) (hreg : (regionsOf inp).Nodup)
    (d : DemandRow) (hd : d ∈ inp.demand) :
    dlookup (demandDict inp) d.region = some d.demand := by
  have hk : ((inp.demand.map (fun x => (x.region, x.demand))).map Prod.fst).Nodup := by
    simpa [List.map_map, Function.comp_def, regionsOf] using hreg
  rw [demandDict, dictOf_eq_self _ hk]
  exact dlookup_of_mem_of_nodup _ _ _ hk
    (List.mem_map_of_mem (fun x => (x.region, x.demand)) hd)

/-! ## Constraint-block lemmas -/

theorem rel_genConstrs (inp : MarketInput) :
    ∀ c ∈ genConstrs inp, c.rel = Rel.le := by
  intro c hc
  simp only [genConstrs, List.mem_flatMap, List.mem_append, List.mem_map,
    List.mem_singleton] at hc
  obtain ⟨r, _, gc, _, hc⟩ := hc
  rcases hc with ⟨p, _, rfl⟩ | rfl <;> rfl

theorem rel_balanceConstr (inp : MarketInput) (r : String) :
    (balanceConstr inp r).rel = Rel.eq := rfl

theorem eqFilter_constrs (inp : MarketInput) :
    (genConstrs inp ++ (regionsOf inp).map (balanceConstr inp)).filter
        (fun c => decide (c.rel = Rel.eq))
      = (regionsOf inp).map (balanceConstr inp) := by
  rw [List.filter_append]
  have h1 : (genConstrs inp).filter (fun c => decide (c.rel = Rel.eq)) = [] := by
    rw [List.filter_eq_nil_iff]
    intro c hc
    simp [rel_genConstrs inp c hc]
  have h2 : ((regionsOf inp).map (balanceConstr inp)).filter
      (fun c => decide (c.rel = Rel.eq)) = (regionsOf inp).map (balanceConstr inp) := by
    rw [List.filter_eq_self]
    intro c hc
    obtain ⟨r, _, rfl⟩ := List.mem_map.mp hc
    simp [rel_balanceConstr]
  rw [h1, h2, List.nil_append]

/-- The successful build yields exactly the generator block followed by the
balance block. -/
theorem buildModel_ok_fields (inp : MarketInput) (m : LPModel)
    (hbuild : buildModel inp = Except.ok m) :
    m.varIndex = dispTriples inp ∧ m.objSense = Sense.minimize
      ∧ m.obj = objTerms inp
      ∧ m.constrs = genConstrs inp ++ (regionsOf inp).map (balanceConstr inp) := by
  unfold buildModel at hbuild
  cases h1 : firstMissingRegion inp with
  | some r => rw [h1] at hbuild; exact absurd hbuild (by simp)
  | none =>
      rw [h1] at hbuild
      cases h2 : firstMissingBand inp with
      | some t => rw [h2] at hbuild; exact absurd hbuild (by simp)
      | none =>
          rw [h2] at hbuild
          cases hbuild
          exact ⟨rfl, rfl, rfl, rfl⟩

/-! ## Semantic lemmas for the balance constraint -/

theorem evalLin_genTerms (inp : MarketInput) (r : String) (v : Var → ℚ)
    (hgen : (inp.gens.map (fun g => (g.region, g.gen))).Nodup) :
    evalLin v (genTerms inp r) = regionDispatchSum inp v r := by
  unfold genTerms regionDispatchSum
  rw [gensDict_getD_of_nodup inp.gens r hgen, evalLin_flatMap, List.map_map]
  congr 1
  apply List.map_congr_left
  intro g _
  simp [Function.comp_def, evalLin_map_one]

/-! ## Validation lemmas -/

theorem genCaps_none_iff (gens : List GenRow) (k : String) :
    dlookup (genCaps gens) k = none ↔ k ∉ gens.map (fun g => g.gen) := by
  rw [genCaps, dlookup_dictOf_none]
  simp [List.map_map, Function.comp_def]

theorem genCaps_lookup (gens : List GenRow) (g : GenRow)
    (hnames : (gens.map (fun x => x.gen)).Nodup) (hg : g ∈ gens) :
    dlookup (genCaps gens) g.gen = some g.cap := by
  have hk : ((gens.map (fun x => (x.gen, x.cap))).map Prod.fst).Nodup := by
    simpa [List.map_map, Function.comp_def] using hnames
  rw [genCaps, dictOf_eq_self _ hk]
  exact dlookup_of_mem_of_nodup _ _ _ hk
    (List.mem_map_of_mem (fun x => (x.gen, x.cap)) hg)

theorem mem_bidGenNames (bids : List BidRow) (x : String) :
    x ∈ bidGenNames bids ↔ ∃ b ∈ bids, b.gen = x := by
  have hfold := List.foldl_map (fun b : BidRow => b.gen)
      (fun (a : List String) y => if y ∈ a then a else a ++ [y]) bids []
  unfold bidGenNames
  rw [← hfold, mem_foldl_dedupStep]
  simp [List.mem_map]

theorem totalBid_eq_zero (bids : List BidRow) (x : String)
    (h : ∀ b ∈ bids, b.gen ≠ x) : totalBid bids x = 0 := by
  unfold totalBid
  rw [List.filter_eq_nil_iff.mpr ?_]
  · rfl
  · intro b hb
    simpa using h b hb

theorem all_congr_mem {γ : Type} (l : List γ) (p q : γ → Bool)
    (h : ∀ x ∈ l, p x = q x) : l.all p = l.all q := by
  induction l with
  | nil => rfl
  | cons x t ih =>
      rw [List.all_cons, List.all_cons, h x (List.mem_cons_self ..),
        ih (fun y hy => h y (List.mem_cons_of_mem _ hy))]

theorem genCaps_append_lookup (gens : List GenRow) (g : GenRow) (x : String)
    (hx : x ≠ g.gen) :
    dlookup (genCaps (gens ++ [g])) x = dlookup (genCaps gens) x := by
  unfold genCaps dictOf
  rw [List.map_append, List.foldl_append]
  simp only [List.map_cons, List.map_nil, List.foldl_cons, List.foldl_nil]
  exact dlookup_dinsert_ne _ _ _ _ hx

/-! ## Nodup of the dispatch-variable index -/

theorem dispTriples_nodup (inp : MarketInput) (hreg : (regionsOf inp).Nodup)
    (hband : inp.bands.Nodup) : (dispTriples inp).Nodup := by
  unfold dispTriples
  rw [List.nodup_flatMap]
  constructor
  · intro r _
    rw [List.nodup_flatMap]
    constructor
    · intro gc _
      refine hband.map ?_
      intro a b hab
      simpa using hab
    · have hkeys := gensDict_inner_keys_nodup inp.gens r
      have hpw : List.Pairwise (fun a b : String × ℚ => a.1 ≠ b.1)
          ((dlookup (gensDict inp.gens) r).getD []) := List.pairwise_map.mp hkeys
      refine hpw.imp ?_
      intro a b hab x hxa hxb
      obtain ⟨p, _, rfl⟩ := List.mem_map.mp hxa
      obtain ⟨q, _, he⟩ := List.mem_map.mp hxb
      simp only [Prod.mk.injEq, true_and] at he
      exact hab he.1.symm
  · refine hreg.imp ?_
    intro r1 r2 hne x hx1 hx2
    simp only [List.mem_flatMap, List.mem_map] at hx1 hx2
    obtain ⟨gc1, _, p1, _, rfl⟩ := hx1
    obtain ⟨gc2, _, p2, _, he⟩ := hx2
    simp only [Prod.mk.injEq] at he
    exact hne he.1.symm

/-! ## Concrete instances used by the claims -/

/-- A well-formed two-region instance: demands 10 and 5, one generator per
region, two price bands, bids saturating each nameplate, one interconnector. -/
def w1 : MarketInput :=
  ⟨[⟨"A", 10⟩, ⟨"B", 5⟩], [⟨"A", "G1", 20⟩, ⟨"B", "G2", 7⟩], [1, 3],
   [⟨"G1", 1, 10⟩, ⟨"G1", 3, 10⟩, ⟨"G2", 1, 3⟩, ⟨"G2", 3, 4⟩],
   [⟨"I1", "A", "B", 6⟩]⟩

/-- One region `A` with a self-loop interconnector `I`
(`region_start = region_end = "A"`). -/
def c1inp : MarketInput :=
  ⟨[⟨"A", 0⟩], [⟨"A", "G", 5⟩], [1], [⟨"G", 1, 5⟩], [⟨"I", "A", "A", 3⟩]⟩

/-- An assignment dispatching 1 MW and pushing 1 MW around the self-loop. -/
def c1v : Var → ℚ := fun x =>
  if x = Var.flow "I" then 1 else if x = Var.disp "A" "G" 1 then 1 else 0

/-- Region `R` has generator `G` and one price band, but `G` placed no bid. -/
def c2inp : MarketInput := ⟨[⟨"R", 0⟩], [⟨"R", "G", 5⟩], [1], [], []⟩

/-- Demand region `X` has no generator row at all. -/
def c5inp : MarketInput := ⟨[⟨"X", 0⟩], [], [], [], []⟩

/-- Demand 10 against a fully-bid nameplate of 5: the LP is infeasible. -/
def c4inp : MarketInput := ⟨[⟨"R", 10⟩], [⟨"R", "G", 5⟩], [2], [⟨"G", 2, 5⟩], []⟩

/-- What CBC-style solvers hand back on `c4inp`: a non-OPTIMAL status with no
objective value and all-zero variable values. -/
def c4solver : LPModel → SolverOutcome := fun _ => ⟨"Infeasible", none, fun _ => 0⟩

/-- Generator `G2` lives in region `Z`, which has no demand row. -/
def c7inp : MarketInput :=
  ⟨[⟨"A", 0⟩], [⟨"A", "G1", 5⟩, ⟨"Z", "G2", 7⟩], [1],
   [⟨"G1", 1, 5⟩, ⟨"G2", 1, 7⟩], []⟩

/-- Generator `G` bids 2 against a nameplate of 1: validation fails. -/
def c8inp : MarketInput := ⟨[], [⟨"A", "G", 1⟩], [], [⟨"G", 1, 2⟩], []⟩

/-! ## Claims -/

/-- Claim C1, counterexample.  On `c1inp` the builder produces exactly one
equality constraint, and the assignment `c1v` satisfies it (its left side
evaluates to `0`, matching the demand `0`); yet the claim's equation
`Σ dispatch + net_flow_into = demand` evaluates to `1 = 0` at `c1v`, which is
false.  The self-loop interconnector is subtracted once by the code's
`if/elif` but contributes `+flow - flow = 0` under the claim's formula, so
the produced constraint is not the claimed one. -/
theorem C1_counterexample :
    ((modelOf c1inp).constrs.filter (fun c => decide (c.rel = Rel.eq))).map
        (fun c => (evalLin c1v c.lhs, c.rhs)) = [(0, 0)]
      ∧ regionDispatchSum c1inp c1v "A" + specNetFlowInto c1inp c1v "A" = 1
      ∧ (dlookup (demandDict c1inp) "A").getD 0 = 0 := by
  refine ⟨?_, ?_, ?_⟩
  · norm_num [modelOf, buildModel, firstMissingRegion, firstMissingBand, c1inp,
      regionsOf, gensDict, dinsert, dlookup, bidsFor, dispTriples, genConstrs,
      bidCapConstr, nameplateConstr, balanceConstr, genTerms, netFlowTerms, icIds,
      icFirst, demandDict, dictOf, objTerms, flowCapOf, evalLin, c1v, List.find?,
      List.filter_cons, List.filterMap_cons,
      show (Rel.le = Rel.eq) ↔ False from ⟨fun h => Rel.noConfusion h, False.elim⟩]
  · norm_num [regionDispatchSum, specNetFlowInto, c1inp, c1v]
  · norm_num [demandDict, c1inp, dictOf, dinsert, dlookup]

/-- Claim C1 (amended): provided no interconnector is a self-loop
(`region_start ≠ region_end`) — and the input is well-keyed: distinct demand
regions, distinct `(region, generator)` pairs, distinct interconnector ids —
the built model's equality constraints are exactly one balance constraint per
region of the demand input, whose right side is that region's demand and
whose left side evaluates, under every assignment, to the region's total
dispatch plus the spec's `net_flow_into` (`+flow` for `region_end`, `-flow`
for `region_start`). -/
theorem C1_regional_balance (inp : MarketInput) (m : LPModel)
    (hbuild : buildModel inp = Except.ok m)
    (hreg : (regionsOf inp).Nodup)
    (hgen : (inp.gens.map (fun g => (g.region, g.gen))).Nodup)
    (hic : (inp.ics.map (fun ic => ic.icid)).Nodup)
    (hloop : ∀ ic ∈ inp.ics, ic.rstart ≠ ic.rend) :
    m.constrs.filter (fun c => decide (c.rel = Rel.eq))
        = inp.demand.map (fun d => balanceConstr inp d.region)
      ∧ ∀ d ∈ inp.demand,
          (balanceConstr inp d.region).rhs = d.demand
          ∧ ∀ v : Var → ℚ,
              evalLin v (balanceConstr inp d.region).lhs
                = regionDispatchSum inp v d.region + specNetFlowInto inp v d.region := by
  obtain ⟨_, _, _, hcon⟩ := buildModel_ok_fields inp m hbuild
  constructor
  · rw [hcon, eqFilter_constrs]
    simp [regionsOf, List.map_map]
  · intro d hd
    constructor
    · show (dlookup (demandDict inp) d.region).getD 0 = d.demand
      rw [demandDict_lookup inp hreg d hd]
      rfl
    · intro v
      show evalLin v (genTerms inp d.region ++ netFlowTerms inp.ics d.region) = _
      rw [evalLin_append, evalLin_genTerms inp d.region v hgen,
        netFlowTerms_eq inp.ics hic d.region,
        evalLin_netFlowRows inp.ics d.region v hloop]
      rfl

/-- Claim C1, witness: the amended statement instantiated on `w1`. -/
theorem C1_witness :
    (modelOf w1).constrs.filter (fun c => decide (c.rel = Rel.eq))
      = w1.demand.map (fun d => balanceConstr w1 d.region) :=
  (C1_regional_balance w1 (modelOf w1) rfl (by decide) (by decide) (by decide)
    (by decide)).1

/-- Claim C2: a generator with no bid row at a price band does not get a
zero-capacity bid cap — the `bids[r][g][p]` lookup of line 107 raises
`KeyError`.  On `c2inp` (generator `G`, one band `1`, empty bid table)
validation passes but the whole invocation fails with `KeyError(1)`, for
every solver. -/
theorem C2_missing_bid_keyerror (solver : LPModel → SolverOutcome) :
    solveMarket solver c2inp = Except.error (PyErr.keyErrQ 1)
      ∧ validate_bids_against_capacity c2inp.gens c2inp.bids = true :=
  ⟨rfl, rfl⟩

/-- Claim C2, witness at the stand-in solver. -/
theorem C2_witness :
    solveMarket trivSolver c2inp = Except.error (PyErr.keyErrQ 1)
      ∧ validate_bids_against_capacity c2inp.gens c2inp.bids = true :=
  C2_missing_bid_keyerror trivSolver

/-- Claim C3: for distinct generator names and non-negative nameplate
capacities, validation fails exactly when some bid names a generator absent
from the generator table or some generator's summed bids strictly exceed its
nameplate capacity; a sum exactly equal to the nameplate passes. -/
theorem C3_validate_false_iff (gens : List GenRow) (bids : List BidRow)
    (hnames : (gens.map (fun g => g.gen)).Nodup)
    (hnn : ∀ g ∈ gens, 0 ≤ g.cap) :
    validate_bids_against_capacity gens bids = false
      ↔ (∃ b ∈ bids, b.gen ∉ gens.map (fun g => g.gen))
        ∨ ∃ g ∈ gens, g.cap < totalBid bids g.gen := by
  unfold validate_bids_against_capacity
  rw [List.all_eq_false]
  constructor
  · rintro ⟨x, hx, hfail⟩
    cases hlook : dlookup (genCaps gens) x with
    | none =>
        obtain ⟨b, hb, rfl⟩ := (mem_bidGenNames bids x).mp hx
        exact Or.inl ⟨b, hb, (genCaps_none_iff gens b.gen).mp hlook⟩
    | some c =>
        rw [hlook] at hfail
        have hlt : c < totalBid bids x := by
          by_contra hle
          exact hfail (by simpa using not_lt.mp hle)
        have hxmem : x ∈ gens.map (fun g => g.gen) := by
          by_contra hout
          rw [← genCaps_none_iff gens x] at hout
          rw [hout] at hlook
          cases hlook
        obtain ⟨g, hg, rfl⟩ := List.mem_map.mp hxmem
        have := genCaps_lookup gens g hnames hg
        rw [this] at hlook
        cases hlook
        exact Or.inr ⟨g, hg, hlt⟩
  · rintro (⟨b, hb, hout⟩ | ⟨g, hg, hlt⟩)
    · refine ⟨b.gen, (mem_bidGenNames bids b.gen).mpr ⟨b, hb, rfl⟩, ?_⟩
      rw [(genCaps_none_iff gens b.gen).mpr hout]
      simp
    · have hbid : ∃ b ∈ bids, b.gen = g.gen := by
        by_contra hnone
        push_neg at hnone
        rw [totalBid_eq_zero bids g.gen hnone] at hlt
        exact absurd (hnn g hg) (not_le.mpr hlt)
      refine ⟨g.gen, (mem_bidGenNames bids g.gen).mpr hbid, ?_⟩
      rw [genCaps_lookup gens g hnames hg]
      simpa using not_le.mpr hlt

/-- Claim C3, witness: a generator bidding 6 against a nameplate of 5 is
rejected. -/
theorem C3_witness :
    validate_bids_against_capacity [⟨"A", "G", 5⟩] [⟨"G", 1, 6⟩] = false :=
  (C3_validate_false_iff [⟨"A", "G", 5⟩] [⟨"G", 1, 6⟩] (by decide)
    (by norm_num)).mpr
    (Or.inr ⟨⟨"A", "G", 5⟩, by simp, by norm_num [totalBid]⟩)

/-- Claim C4: on the infeasible instance `c4inp` with a non-OPTIMAL solver
outcome, the extractor still returns a fully populated result: the status is
`Infeasible` (not `Optimal`), yet `total_cost` is present and set to the
solver-reported `None`, and the dispatch mapping is populated with the
solver-left values — the claim's required absence of these fields does not
hold. -/
theorem C4_extractor_populates :
    solveMarket c4solver c4inp
        = Except.ok ⟨"Infeasible", none, [("R", [("G", 0)])], []⟩
      ∧ ("Infeasible" : String) ≠ "Optimal" := by
  refine ⟨?_, by decide⟩
  norm_num [solveMarket, validate_bids_against_capacity, bidGenNames, genCaps,
    totalBid, buildModel, firstMissingRegion, firstMissingBand, c4inp, c4solver,
    regionsOf, gensDict, dinsert, dlookup, bidsFor, dispTriples, extractResults,
    dispatchEntries, flowEntries, icIds, icFirst, dictOf, List.find?]

/-- Claim C5: a region in the demand table with no generator row makes the
whole invocation fail with `KeyError` at the `generators[region]` lookup of
line 65, for every solver, instead of producing a balance constraint. -/
theorem C5_missing_region_keyerror (solver : LPModel → SolverOutcome) :
    solveMarket solver c5inp = Except.error (PyErr.keyErrS "X")
      ∧ "X" ∈ regionsOf c5inp
      ∧ validate_bids_against_capacity c5inp.gens c5inp.bids = true :=
  ⟨rfl, by decide, rfl⟩

/-- Claim C5, witness at the stand-in solver. -/
theorem C5_witness :
    solveMarket trivSolver c5inp = Except.error (PyErr.keyErrS "X")
      ∧ "X" ∈ regionsOf c5inp
      ∧ validate_bids_against_capacity c5inp.gens c5inp.bids = true :=
  C5_missing_region_keyerror trivSolver

/-- Claim C6: the built objective is a minimization, its variable index has
no duplicates (for well-keyed input), and its value under every assignment is
the sum over all dispatch variables of the variable's value times the price
level of its band — the price is the per-unit cost coefficient. -/
theorem C6_objective (inp : MarketInput) (m : LPModel)
    (hbuild : buildModel inp = Except.ok m)
    (hreg : (regionsOf inp).Nodup) (hband : inp.bands.Nodup) :
    m.objSense = Sense.minimize ∧ m.varIndex.Nodup
      ∧ ∀ v : Var → ℚ,
          evalLin v m.obj
            = (m.varIndex.map (fun t => v (Var.disp t.1 t.2.1 t.2.2) * t.2.2)).sum := by
  obtain ⟨hvar, hsense, hobj, _⟩ := buildModel_ok_fields inp m hbuild
  refine ⟨hsense, hvar ▸ dispTriples_nodup inp hreg hband, ?_⟩
  intro v
  rw [hobj, hvar]
  unfold objTerms evalLin
  rw [List.map_map]
  rfl

/-- Claim C6, witness: the objective sense on `w1`. -/
theorem C6_witness : (modelOf w1).objSense = Sense.minimize :=
  (C6_objective w1 (modelOf w1) rfl (by decide) (by decide)).1

/-- Claim C7, counterexample.  On `c7inp` the build succeeds, the generator
row `(Z, G2, 7)` is present, yet no constraint of the model mentions `G2`'s
dispatch variable at all — in particular the claimed nameplate-cap constraint
for `G2` is absent, because the constraint loops run only over regions of the
demand table and `Z` has no demand row. -/
theorem C7_counterexample :
    buildModel c7inp = Except.ok (modelOf c7inp)
      ∧ (⟨"Z", "G2", 7⟩ : GenRow) ∈ c7inp.gens
      ∧ ((modelOf c7inp).constrs.all (fun c =>
            c.lhs.all (fun t => !(decide (t.1 = Var.disp "Z" "G2" 1))))) = true
      ∧ nameplateConstr c7inp "Z" "G2" 7 ∉ (modelOf c7inp).constrs := by
  refine ⟨rfl, by decide, by decide, by decide⟩

/-- Claim C7 (amended): for every generator whose region appears in the
demand input (and well-keyed generator rows), the model contains the
nameplate-cap constraint `Σ_p dispatch[r,g,p] ≤ nameplate_capacity(g)`, and
consequently every assignment satisfying all constraints — in particular
every OPTIMAL solution — keeps that generator's total dispatch within its
nameplate capacity. -/
theorem C7_nameplate (inp : MarketInput) (m : LPModel)
    (hbuild : buildModel inp = Except.ok m)
    (hgen : (inp.gens.map (fun g => (g.region, g.gen))).Nodup) :
    ∀ grow ∈ inp.gens, grow.region ∈ regionsOf inp →
      nameplateConstr inp grow.region grow.gen grow.cap ∈ m.constrs
        ∧ ∀ v : Var → ℚ, (∀ c ∈ m.constrs, satisfiedBy v c) →
            (inp.bands.map (fun p => v (Var.disp grow.region grow.gen p))).sum
              ≤ grow.cap := by
  obtain ⟨_, _, _, hcon⟩ := buildModel_ok_fields inp m hbuild
  intro grow hgrow hr
  have hmem : nameplateConstr inp grow.region grow.gen grow.cap ∈ m.constrs := by
    rw [hcon, List.mem_append]
    left
    rw [genConstrs, List.mem_flatMap]
    refine ⟨grow.region, hr, ?_⟩
    rw [List.mem_flatMap]
    refine ⟨(grow.gen, grow.cap), ?_, ?_⟩
    · rw [gensDict_getD_of_nodup inp.gens grow.region hgen]
      exact List.mem_map_of_mem _ (List.mem_filter_of_mem hgrow (by simp))
    · simp
  refine ⟨hmem, ?_⟩
  intro v hv
  have hs := hv _ hmem
  unfold satisfiedBy nameplateConstr at hs
  simpa [evalLin_map_one] using hs

/-- Claim C7, witness: `G1` (region `A`, which has demand) does get its
nameplate constraint on `c7inp`. -/
theorem C7_witness :
    nameplateConstr c7inp "A" "G1" 5 ∈ (modelOf c7inp).constrs :=
  (C7_nameplate c7inp (modelOf c7inp) rfl (by decide) ⟨"A", "G1", 5⟩ (by decide)
    (by decide)).1

/-- Claim C8: whenever validation fails, the invocation returns the
`ValueError` of line 23 — for every solver, so no model is built and no
solver interaction happens. -/
theorem C8_validation_stops (inp : MarketInput) (solver : LPModel → SolverOutcome)
    (h : validate_bids_against_capacity inp.gens inp.bids = false) :
    solveMarket solver inp
      = Except.error (PyErr.valueErr "Bids exceed generator capacity") := by
  simp [solveMarket, h]

/-- Claim C8, witness: the over-bid instance `c8inp` stops with the
validation error. -/
theorem C8_witness :
    solveMarket trivSolver c8inp
      = Except.error (PyErr.valueErr "Bids exceed generator capacity") :=
  C8_validation_stops c8inp trivSolver
    (by norm_num [validate_bids_against_capacity, bidGenNames, genCaps, totalBid,
      c8inp, dictOf, dinsert, dlookup])

/-- Claim C9: two distinct interconnectors sharing the ordered region pair
`(s, e)` produce a single flow entry keyed `(s, e)`, holding the second
interconnector's flow value (the later entry overwrites the earlier). -/
theorem C9_flow_overwrite (id1 id2 s e : String) (cap1 cap2 : ℚ)
    (o : SolverOutcome) (h : id1 ≠ id2) :
    (extractResults ⟨[], [], [], [], [⟨id1, s, e, cap1⟩, ⟨id2, s, e, cap2⟩]⟩
        o).interconnector_flow
      = [((s, e), o.value (Var.flow id2))] := by
  show flowEntries [⟨id1, s, e, cap1⟩, ⟨id2, s, e, cap2⟩] o.value = _
  unfold flowEntries icIds icFirst
  simp [h, Ne.symm h, dinsert]

/-- Claim C9, witness at concrete ids and the stand-in outcome. -/
theorem C9_witness :
    (extractResults ⟨[], [], [], [], [⟨"I1", "A", "B", 5⟩, ⟨"I2", "A", "B", 7⟩]⟩
        trivOutcome).interconnector_flow = [(("A", "B"), 0)] :=
  C9_flow_overwrite "I1" "I2" "A" "B" 5 7 trivOutcome (by decide)

/-- Claim C10: validation accepts the empty bid table for every generator
table, and appending a generator that no bid references never changes the
validation outcome — a generator without bids is never checked and can never
cause failure. -/
theorem C10_unbid_generators :
    (∀ gens : List GenRow, validate_bids_against_capacity gens [] = true)
      ∧ ∀ (gens : List GenRow) (g : GenRow) (bids : List BidRow),
          (∀ b ∈ bids, b.gen ≠ g.gen) →
          validate_bids_against_capacity (gens ++ [g]) bids
            = validate_bids_against_capacity gens bids := by
  constructor
  · intro gens
    rfl
  · intro gens g bids hb
    unfold validate_bids_against_capacity
    apply all_congr_mem
    intro x hx
    obtain ⟨b, hbmem, rfl⟩ := (mem_bidGenNames bids x).mp hx
    rw [genCaps_append_lookup gens g b.gen (hb b hbmem)]

/-- Claim C10, witness: empty bids pass; an unreferenced generator appended
to the table leaves the outcome unchanged. -/
theorem C10_witness :
    validate_bids_against_capacity [⟨"A", "G", 5⟩] [] = true
      ∧ validate_bids_against_capacity ([] ++ [⟨"A", "G", 5⟩]) [⟨"H", 1, 3⟩]
          = validate_bids_against_capacity [] [⟨"H", 1, 3⟩] :=
  ⟨C10_unbid_generators.1 [⟨"A", "G", 5⟩],
    C10_unbid_generators.2 [] ⟨"A", "G", 5⟩ [⟨"H", 1, 3⟩] (by decide)⟩

end Nem
